import Mathlib

/-
Verification of the markdown rendering core of the medical-assistant app
(src/src/App.tsx): the inline formatter `renderInline` and the block
segmentation loop of `MarkdownRenderer`.  Strings are modelled as lists of
characters; the segmenter is written with an explicit fuel argument equal to
the number of remaining lines, which the source's forward cursor always
decreases by at least one per emitted block.
-/

namespace MedMd

/-- A line (or any piece of text) is a list of characters. -/
abbrev Line := List Char

/-- Whitespace test used by trimming, standing in for the JavaScript
whitespace class on the ASCII inputs the parser receives. -/
def isWS (c : Char) : Bool := c.isWhitespace

/-- Embedding of `String.prototype.trim`: remove leading and trailing
whitespace. -/
def trimL (cs : List Char) : List Char :=
  ((cs.dropWhile isWS).reverse.dropWhile isWS).reverse

/-- Embedding of `String.prototype.startsWith`: `startsL pre s` is true when
`pre` is an initial segment of `s`. -/
def startsL : List Char → List Char → Bool
  | [], _ => true
  | _ :: _, [] => false
  | p :: ps, c :: cs => p == c && startsL ps cs

/-- Lazy search for the closing `**` of the regex `\*\*.*?\*\*` (the `.`
of JavaScript does not cross a line break): returns the number of characters
consumed by `.*?` before a closing `**`, if any. -/
def closeLen : List Char → Option Nat
  | '*' :: '*' :: _ => some 0
  | [] => none
  | c :: cs => if c == '\n' then none else (closeLen cs).map (· + 1)

/-- Length of the match of `\*\*.*?\*\*` anchored at the start of the input,
if the regex matches there. -/
def matchAt : List Char → Option Nat
  | '*' :: '*' :: cs => (closeLen cs).map (· + 4)
  | _ => none

/-- Worker for the capture-group split `text.split(/(\*\*.*?\*\*)/g)`:
accumulates the current unmatched segment (reversed) in `pre`, emits it
together with each leftmost match, and keeps the trailing segment.  The fuel
is always instantiated with the length of the text. -/
def splitGo : Nat → List Char → List Char → List (List Char)
  | _, pre, [] => [pre.reverse]
  | 0, pre, cs => [pre.reverse ++ cs]
  | fuel + 1, pre, c :: cs =>
    match matchAt (c :: cs) with
    | some len => pre.reverse :: (c :: cs).take len :: splitGo fuel [] ((c :: cs).drop len)
    | none => splitGo fuel (c :: pre) cs

/-- Embedding of `text.split(/(\*\*.*?\*\*)/g)`: alternating unmatched
segments and captured matches, beginning and ending with a (possibly empty)
unmatched segment. -/
def splitBold (cs : List Char) : List (List Char) := splitGo cs.length [] cs

/-- An inline span: a plain text run or an emphasized (`<strong>`) run. -/
inductive InlineSpan
  | plain (s : Line)
  | emph (s : Line)
deriving DecidableEq, Repr

/-- The classification applied to every part of the split inside
`renderInline`: a part that starts and ends with `**` becomes an emphasized
span with `part.slice(2, -2)` as its text, any other part is kept as a plain
text child. -/
def mkSpan (p : List Char) : InlineSpan :=
  if startsL ('*' :: '*' :: []) p && startsL ('*' :: '*' :: []) p.reverse then
    InlineSpan.emph ((p.drop 2).take (p.length - 4))
  else
    InlineSpan.plain p

/-- Embedding of `renderInline` from the source, over character lists. -/
def renderInlineL (cs : List Char) : List InlineSpan := (splitBold cs).map mkSpan

/-- Embedding of `renderInline` from the source, over strings. -/
def renderInline (s : String) : List InlineSpan := renderInlineL s.toList

/-- Embedding of `String.prototype.split` with a single-character separator,
used for `content.split('\n')` and for `row.split('|')`. -/
def splitOnChar (sep : Char) : List Char → List (List Char)
  | [] => [[]]
  | c :: cs =>
    match splitOnChar sep cs with
    | [] => [[]]
    | r :: rs => if c == sep then [] :: r :: rs else (c :: r) :: rs

/-- Embedding of `r.split('|').filter(c => c.trim() !== '').map(c => c.trim())`
from the table branch of the segmenter. -/
def splitCells (r : Line) : List Line :=
  ((splitOnChar '|' r).filter (fun c => trimL c != [])).map trimL

/-- Classification `line.trim().startsWith('### ')`. -/
def h3Line (l : Line) : Bool := startsL ('#' :: '#' :: '#' :: ' ' :: []) (trimL l)

/-- Classification `line.trim().startsWith('## ')`. -/
def h2Line (l : Line) : Bool := startsL ('#' :: '#' :: ' ' :: []) (trimL l)

/-- Classification `line.trim().startsWith('|')`. -/
def pipeLine (l : Line) : Bool := startsL ('|' :: []) (trimL l)

/-- Classification `line.trim().startsWith('* ') || line.trim().startsWith('- ')`. -/
def ulLine (l : Line) : Bool :=
  startsL ('*' :: ' ' :: []) (trimL l) || startsL ('-' :: ' ' :: []) (trimL l)

/-- Classification `/^\d+\./.test(line.trim())`. -/
def olLine (l : Line) : Bool :=
  !((trimL l).takeWhile Char.isDigit).isEmpty &&
    startsL ('.' :: []) ((trimL l).drop ((trimL l).takeWhile Char.isDigit).length)

/-- Embedding of `t.replace(/^\d+\.\s*/, '')` on an already trimmed line:
strip the leading digits, the period, and any following whitespace; leave the
input unchanged when the pattern does not match. -/
def stripOl (t : Line) : Line :=
  if !(t.takeWhile Char.isDigit).isEmpty &&
      startsL ('.' :: []) (t.drop (t.takeWhile Char.isDigit).length) then
    (t.drop ((t.takeWhile Char.isDigit).length + 1)).dropWhile isWS
  else t

/-- A block node of the parsed document.  Headings carry their raw child as a
single span (the source renders `line.substring(4)` literally); table headers
are raw strings (rendered literally) while table data cells carry the result
of the inline formatter. -/
inductive Block
  | heading (level : Nat) (text : List InlineSpan)
  | table (headers : List Line) (rows : List (List (List InlineSpan)))
  | unorderedList (items : List (List InlineSpan))
  | orderedList (items : List (List InlineSpan))
  | paragraph (text : List InlineSpan)
deriving DecidableEq, Repr

/-- Embedding of the classification loop of `MarkdownRenderer`, with a fuel
argument bounding the number of lines still to be consumed.  Each grouping
branch collects the maximal run of lines matching its predicate (the pushed
values are the trimmed lines) and resumes at the first non-matching line,
mirroring the `i--` after each `while` in the source. -/
def segLines : Nat → List Line → List Block
  | _, [] => []
  | 0, _ :: _ => []
  | fuel + 1, l :: ls =>
    if h3Line l then
      Block.heading 3 [InlineSpan.plain ((trimL l).drop 4)] :: segLines fuel ls
    else if h2Line l then
      Block.heading 2 [InlineSpan.plain ((trimL l).drop 3)] :: segLines fuel ls
    else if pipeLine l then
      (if 2 ≤ (trimL l :: (ls.takeWhile pipeLine).map trimL).length then
        [Block.table (splitCells (trimL l))
          (((trimL l :: (ls.takeWhile pipeLine).map trimL).drop 2).map
            fun r => (splitCells r).map renderInlineL)]
       else []) ++ segLines fuel (ls.dropWhile pipeLine)
    else if ulLine l then
      Block.unorderedList ((trimL l :: (ls.takeWhile ulLine).map trimL).map
        fun it => renderInlineL (it.drop 2)) :: segLines fuel (ls.dropWhile ulLine)
    else if olLine l then
      Block.orderedList ((trimL l :: (ls.takeWhile olLine).map trimL).map
        fun it => renderInlineL (stripOl it)) :: segLines fuel (ls.dropWhile olLine)
    else if !(trimL l).isEmpty then
      Block.paragraph (renderInlineL (trimL l)) :: segLines fuel ls
    else
      segLines fuel ls

/-- The segmenter on a list of lines: the number of lines is always enough
fuel, since every step of the loop consumes at least one line. -/
def segmentLines (ls : List Line) : List Block := segLines ls.length ls

/-- Embedding of the parsing performed by `MarkdownRenderer` on its `content`
prop: split on line breaks, then run the classification loop. -/
def segment (s : String) : List Block := segmentLines (splitOnChar '\n' s.toList)

/-- True when the first line of the list (if any) fails the predicate: the
state in which a grouping run has just stopped. -/
def headFails (p : Line → Bool) : List Line → Bool
  | [] => true
  | l :: _ => !(p l)

/-- True when the emphasis regex `\*\*.*?\*\*` matches somewhere in the
input. -/
def hasBold : List Char → Bool
  | [] => false
  | c :: cs => (matchAt (c :: cs)).isSome || hasBold cs

/-- The classification loop returns nothing on an empty line list, whatever
the fuel. -/
lemma segLines_nil (n : Nat) : segLines n [] = [] := by cases n <;> rfl

/-- Dropping a matching run never lengthens the line list. -/
lemma length_dropWhile_le (p : Line → Bool) (ls : List Line) :
    (ls.dropWhile p).length ≤ ls.length := by
  induction ls with
  | nil => simp
  | cons l t ih =>
    by_cases h : p l
    · rw [List.dropWhile_cons_of_pos h]; exact Nat.le_succ_of_le ih
    · rw [List.dropWhile_cons_of_neg h]

/-- Any fuel at least the number of lines yields the same result: every step
of the loop consumes at least one line, so the scan always makes progress. -/
lemma segLines_fuel : ∀ (n : Nat) (ls : List Line) (m : Nat),
    ls.length ≤ n → ls.length ≤ m → segLines n ls = segLines m ls := by
  intro n
  induction n with
  | zero =>
    intro ls m h1 _
    have hls : ls = [] := List.length_eq_zero.mp (Nat.le_zero.mp h1)
    subst hls
    rw [segLines_nil, segLines_nil]
  | succ n ih =>
    intro ls m h1 h2
    cases ls with
    | nil => rw [segLines_nil, segLines_nil]
    | cons l t =>
      cases m with
      | zero => simp at h2
      | succ m =>
        have ht : t.length ≤ n := by simp only [List.length_cons] at h1; omega
        have htm : t.length ≤ m := by simp only [List.length_cons] at h2; omega
        simp only [segLines]
        split_ifs
        · rw [ih t m ht htm]
        · rw [ih t m ht htm]
        · rw [ih (t.dropWhile pipeLine) m
            (Nat.le_trans (length_dropWhile_le _ _) ht)
            (Nat.le_trans (length_dropWhile_le _ _) htm)]
        · rw [ih (t.dropWhile pipeLine) m
            (Nat.le_trans (length_dropWhile_le _ _) ht)
            (Nat.le_trans (length_dropWhile_le _ _) htm)]
        · rw [ih (t.dropWhile ulLine) m
            (Nat.le_trans (length_dropWhile_le _ _) ht)
            (Nat.le_trans (length_dropWhile_le _ _) htm)]
        · rw [ih (t.dropWhile olLine) m
            (Nat.le_trans (length_dropWhile_le _ _) ht)
            (Nat.le_trans (length_dropWhile_le _ _) htm)]
        · rw [ih t m ht htm]
        · exact ih t m ht htm

/-- Splitting a line list at the end of a run: when every line of `run`
matches `p` and the first line of `rest` does not, `takeWhile` returns
exactly `run` and `dropWhile` returns exactly `rest`. -/
lemma takeWhile_append_run (p : Line → Bool) :
    ∀ (run rest : List Line), (∀ x ∈ run, p x = true) → headFails p rest = true →
      (run ++ rest).takeWhile p = run ∧ (run ++ rest).dropWhile p = rest := by
  intro run
  induction run with
  | nil =>
    intro rest _ hrest
    cases rest with
    | nil => exact ⟨rfl, rfl⟩
    | cons r t =>
      have hr : p r = false := by simpa [headFails] using hrest
      constructor
      · simp [List.takeWhile_cons_of_neg, hr]
      · simp [List.dropWhile_cons_of_neg, hr]
  | cons x run ih =>
    intro rest hall hrest
    have hx : p x = true := hall x (by simp)
    have ih2 := ih rest (fun y hy => hall y (by simp [hy])) hrest
    constructor
    · simp only [List.cons_append, List.takeWhile_cons_of_pos hx, ih2.1]
    · simp only [List.cons_append, List.dropWhile_cons_of_pos hx, ih2.2]

/-- A successful `startsL` exposes the head character of the scanned list. -/
lemma startsL_head_ex {a : Char} {ps s : List Char} (h : startsL (a :: ps) s = true) :
    ∃ t, s = a :: t := by
  cases s with
  | nil => simp [startsL] at h
  | cons c t =>
    simp only [startsL, Bool.and_eq_true, beq_iff_eq] at h
    exact ⟨t, by rw [h.1]⟩

/-- `startsL` fails as soon as the first characters disagree. -/
lemma startsL_false_head {a c : Char} (ps t : List Char) (h : (a == c) = false) :
    startsL (a :: ps) (c :: t) = false := by
  simp [startsL, h]

/-- A non-digit character is never `==` to a digit. -/
lemma digit_beq_false {a d : Char} (ha : a.isDigit = false) (hd : d.isDigit = true) :
    (a == d) = false := by
  cases h : a == d
  · rfl
  · have had : a = d := beq_iff_eq.mp h
    subst had
    rw [ha] at hd
    exact absurd hd (by simp)

/-- A pipe-prefixed line is not a level-3 heading. -/
lemma not_h3_of_pipe {l : Line} (h : pipeLine l = true) : h3Line l = false := by
  obtain ⟨t, ht⟩ := startsL_head_ex h
  simp only [h3Line, ht]
  exact startsL_false_head _ _ (by decide)

/-- A pipe-prefixed line is not a level-2 heading. -/
lemma not_h2_of_pipe {l : Line} (h : pipeLine l = true) : h2Line l = false := by
  obtain ⟨t, ht⟩ := startsL_head_ex h
  simp only [h2Line, ht]
  exact startsL_false_head _ _ (by decide)

/-- A bullet line starts with `*` or `-` after trimming. -/
lemma ul_head {l : Line} (h : ulLine l = true) :
    ∃ t, trimL l = '*' :: t ∨ trimL l = '-' :: t := by
  have h' : startsL ('*' :: ' ' :: []) (trimL l) = true ∨
      startsL ('-' :: ' ' :: []) (trimL l) = true := by
    unfold ulLine at h
    exact (Bool.or_eq_true _ _).mp h
  rcases h' with h' | h'
  · obtain ⟨t, ht⟩ := startsL_head_ex h'
    exact ⟨t, Or.inl ht⟩
  · obtain ⟨t, ht⟩ := startsL_head_ex h'
    exact ⟨t, Or.inr ht⟩

/-- A bullet line is not a level-3 heading. -/
lemma not_h3_of_ul {l : Line} (h : ulLine l = true) : h3Line l = false := by
  obtain ⟨t, ht | ht⟩ := ul_head h <;>
    (simp only [h3Line, ht]; exact startsL_false_head _ _ (by decide))

/-- A bullet line is not a level-2 heading. -/
lemma not_h2_of_ul {l : Line} (h : ulLine l = true) : h2Line l = false := by
  obtain ⟨t, ht | ht⟩ := ul_head h <;>
    (simp only [h2Line, ht]; exact startsL_false_head _ _ (by decide))

/-- A bullet line is not a table line. -/
lemma not_pipe_of_ul {l : Line} (h : ulLine l = true) : pipeLine l = false := by
  obtain ⟨t, ht | ht⟩ := ul_head h <;>
    (simp only [pipeLine, ht]; exact startsL_false_head _ _ (by decide))

/-- An ordered-item line starts with a digit after trimming. -/
lemma ol_head {l : Line} (h : olLine l = true) :
    ∃ c t, trimL l = c :: t ∧ c.isDigit = true := by
  unfold olLine at h
  cases e : trimL l with
  | nil => rw [e] at h; simp at h
  | cons c t =>
    rw [e] at h
    by_cases hc : c.isDigit = true
    · exact ⟨c, t, rfl, hc⟩
    · rw [List.takeWhile_cons_of_neg hc] at h
      simp at h

/-- An ordered-item line is not a level-3 heading. -/
lemma not_h3_of_ol {l : Line} (h : olLine l = true) : h3Line l = false := by
  obtain ⟨c, t, ht, hc⟩ := ol_head h
  simp only [h3Line, ht]
  exact startsL_false_head _ _ (digit_beq_false (by decide) hc)

/-- An ordered-item line is not a level-2 heading. -/
lemma not_h2_of_ol {l : Line} (h : olLine l = true) : h2Line l = false := by
  obtain ⟨c, t, ht, hc⟩ := ol_head h
  simp only [h2Line, ht]
  exact startsL_false_head _ _ (digit_beq_false (by decide) hc)

/-- An ordered-item line is not a table line. -/
lemma not_pipe_of_ol {l : Line} (h : olLine l = true) : pipeLine l = false := by
  obtain ⟨c, t, ht, hc⟩ := ol_head h
  simp only [pipeLine, ht]
  exact startsL_false_head _ _ (digit_beq_false (by decide) hc)

/-- An ordered-item line is not a bullet line. -/
lemma not_ul_of_ol {l : Line} (h : olLine l = true) : ulLine l = false := by
  obtain ⟨c, t, ht, hc⟩ := ol_head h
  simp only [ulLine, ht]
  rw [startsL_false_head _ _ (digit_beq_false (by decide) hc),
    startsL_false_head _ _ (digit_beq_false (by decide) hc)]
  rfl

/-- One step of the loop on a table line: collect the maximal pipe-prefixed
run, emit a table only when it has at least two lines, and resume at the
first non-matching line. -/
lemma segLines_succ_pipe (fuel : Nat) (l : Line) (ls : List Line)
    (h : pipeLine l = true) :
    segLines (fuel + 1) (l :: ls) =
      (if 2 ≤ (trimL l :: (ls.takeWhile pipeLine).map trimL).length then
        [Block.table (splitCells (trimL l))
          (((trimL l :: (ls.takeWhile pipeLine).map trimL).drop 2).map
            fun r => (splitCells r).map renderInlineL)]
       else []) ++ segLines fuel (ls.dropWhile pipeLine) := by
  simp [segLines, not_h3_of_pipe h, not_h2_of_pipe h, h]

/-- One step of the loop on a bullet line. -/
lemma segLines_succ_ul (fuel : Nat) (l : Line) (ls : List Line)
    (h : ulLine l = true) :
    segLines (fuel + 1) (l :: ls) =
      Block.unorderedList ((trimL l :: (ls.takeWhile ulLine).map trimL).map
        fun it => renderInlineL (it.drop 2)) :: segLines fuel (ls.dropWhile ulLine) := by
  simp [segLines, not_h3_of_ul h, not_h2_of_ul h, not_pipe_of_ul h, h]

/-- One step of the loop on an ordered-item line. -/
lemma segLines_succ_ol (fuel : Nat) (l : Line) (ls : List Line)
    (h : olLine l = true) :
    segLines (fuel + 1) (l :: ls) =
      Block.orderedList ((trimL l :: (ls.takeWhile olLine).map trimL).map
        fun it => renderInlineL (stripOl it)) :: segLines fuel (ls.dropWhile olLine) := by
  simp [segLines, not_h3_of_ol h, not_h2_of_ol h, not_pipe_of_ol h, not_ul_of_ol h, h]

/-- Grouping on a full pipe-prefixed run: the emitted blocks for the run are
followed by the segmentation of exactly the remaining lines. -/
lemma seg_pipe_grouped (l : Line) (ls rest : List Line)
    (hl : pipeLine l = true) (hall : ∀ x ∈ ls, pipeLine x = true)
    (hrest : headFails pipeLine rest = true) :
    segmentLines ((l :: ls) ++ rest) =
      (if 2 ≤ (l :: ls).length then
        [Block.table (splitCells (trimL l))
          ((((l :: ls).map trimL).drop 2).map fun r => (splitCells r).map renderInlineL)]
       else []) ++ segmentLines rest := by
  obtain ⟨htake, hdrop⟩ := takeWhile_append_run pipeLine ls rest hall hrest
  show segLines ((l :: (ls ++ rest)).length) (l :: (ls ++ rest)) = _
  rw [show (l :: (ls ++ rest)).length = (ls ++ rest).length + 1 from rfl]
  rw [segLines_succ_pipe _ _ _ hl, htake, hdrop]
  rw [segLines_fuel ((ls ++ rest).length) rest rest.length (by simp) (Nat.le_refl _)]
  simp only [List.length_cons, List.length_map, List.map_cons]
  rfl

/-- Grouping on a full bullet run. -/
lemma seg_ul_grouped (l : Line) (ls rest : List Line)
    (hl : ulLine l = true) (hall : ∀ x ∈ ls, ulLine x = true)
    (hrest : headFails ulLine rest = true) :
    segmentLines ((l :: ls) ++ rest) =
      Block.unorderedList (((l :: ls).map trimL).map fun it => renderInlineL (it.drop 2))
        :: segmentLines rest := by
  obtain ⟨htake, hdrop⟩ := takeWhile_append_run ulLine ls rest hall hrest
  show segLines ((l :: (ls ++ rest)).length) (l :: (ls ++ rest)) = _
  rw [show (l :: (ls ++ rest)).length = (ls ++ rest).length + 1 from rfl]
  rw [segLines_succ_ul _ _ _ hl, htake, hdrop]
  rw [segLines_fuel ((ls ++ rest).length) rest rest.length (by simp) (Nat.le_refl _)]
  simp only [List.map_cons]
  rfl

/-- Grouping on a full ordered-item run. -/
lemma seg_ol_grouped (l : Line) (ls rest : List Line)
    (hl : olLine l = true) (hall : ∀ x ∈ ls, olLine x = true)
    (hrest : headFails olLine rest = true) :
    segmentLines ((l :: ls) ++ rest) =
      Block.orderedList (((l :: ls).map trimL).map fun it => renderInlineL (stripOl it))
        :: segmentLines rest := by
  obtain ⟨htake, hdrop⟩ := takeWhile_append_run olLine ls rest hall hrest
  show segLines ((l :: (ls ++ rest)).length) (l :: (ls ++ rest)) = _
  rw [show (l :: (ls ++ rest)).length = (ls ++ rest).length + 1 from rfl]
  rw [segLines_succ_ol _ _ _ hl, htake, hdrop]
  rw [segLines_fuel ((ls ++ rest).length) rest rest.length (by simp) (Nat.le_refl _)]
  simp only [List.map_cons]
  rfl

/-- A pipe-prefixed run of at least two lines: headers come from the first
line, the second line is discarded whatever it contains, the remaining run
lines become the data rows with each cell passed through the inline
formatter. -/
lemma seg_table_rows (hd sep : Line) (rs rest : List Line)
    (h1 : pipeLine hd = true) (h2 : pipeLine sep = true)
    (hall : ∀ x ∈ rs, pipeLine x = true) (hrest : headFails pipeLine rest = true) :
    segmentLines (hd :: sep :: rs ++ rest) =
      Block.table (splitCells (trimL hd))
        (rs.map fun r => (splitCells (trimL r)).map renderInlineL) :: segmentLines rest := by
  have hall2 : ∀ x ∈ sep :: rs, pipeLine x = true := by
    intro x hx
    rcases List.mem_cons.mp hx with hx | hx
    · rw [hx]; exact h2
    · exact hall x hx
  have h := seg_pipe_grouped hd (sep :: rs) rest h1 hall2 hrest
  rw [if_pos (by simp)] at h
  simpa [List.map_map, Function.comp] using h

/-- C1: a contiguous pipe-prefixed run of length one (the length-zero case is
vacuous, a run only starts at a pipe-prefixed line) emits no block node at
all: segmentation continues as if the run were absent, dropping its content
rather than demoting it to a paragraph. -/
theorem claim1_short_pipe_run_drops (l : Line) (rest : List Line)
    (hl : pipeLine l = true) (hrest : headFails pipeLine rest = true) :
    segmentLines (l :: rest) = segmentLines rest := by
  have h := seg_pipe_grouped l [] rest hl (by simp) hrest
  rw [if_neg (by simp)] at h
  simpa using h

/-- C1 witness: `segment "| lone row |"` is the empty document. -/
theorem claim1_witness : segment "| lone row |" = [] := by
  have h := claim1_short_pipe_run_drops "| lone row |".toList [] (by decide) (by decide)
  exact (show segment "| lone row |" = segmentLines ["| lone row |".toList] from rfl).trans
    (h.trans rfl)

/-- C2: for a pipe-prefixed run of at least two lines, the emitted table has
headers obtained by splitting the first run line on the pipe character with
empty-after-trim segments discarded and the rest trimmed, the second run
line (`sep`) is discarded whatever its content, the rows are the run lines
from index 2 onward split the same way, and every data cell goes through the
inline formatter while the headers stay raw literal strings. -/
theorem claim2_table_run_shape (hd sep : Line) (rs rest : List Line)
    (h1 : pipeLine hd = true) (h2 : pipeLine sep = true)
    (hall : ∀ x ∈ rs, pipeLine x = true) (hrest : headFails pipeLine rest = true) :
    segmentLines (hd :: sep :: rs ++ rest) =
      Block.table (splitCells (trimL hd))
        (rs.map fun r => (splitCells (trimL r)).map renderInlineL) :: segmentLines rest :=
  seg_table_rows hd sep rs rest h1 h2 hall hrest

/-- C2 witness: a three-line table evaluated concretely. -/
theorem claim2_witness :
    segmentLines ["| a |".toList, "|---|".toList, "| b |".toList] =
      [Block.table [['a']] [[[InlineSpan.plain ['b']]]]] := by
  have h := claim2_table_run_shape "| a |".toList "|---|".toList ["| b |".toList] []
    (by decide) (by decide) (by decide) (by decide)
  exact h.trans (by decide)

/-- C3: after consuming the N lines of a grouping run (bullet list, ordered
list, or table) the cursor stands exactly on the first line that failed the
run predicate, so that line is re-classified by the outer scan; concretely,
`segment "* a\n* b\nplain"` is a two-item unordered list followed by the
paragraph `plain`. -/
theorem claim3_run_cursor_advance :
    (∀ (l : Line) (ls rest : List Line), ulLine l = true →
        (∀ x ∈ ls, ulLine x = true) → headFails ulLine rest = true →
        segmentLines ((l :: ls) ++ rest) =
          Block.unorderedList (((l :: ls).map trimL).map fun it => renderInlineL (it.drop 2))
            :: segmentLines rest) ∧
    (∀ (l : Line) (ls rest : List Line), olLine l = true →
        (∀ x ∈ ls, olLine x = true) → headFails olLine rest = true →
        segmentLines ((l :: ls) ++ rest) =
          Block.orderedList (((l :: ls).map trimL).map fun it => renderInlineL (stripOl it))
            :: segmentLines rest) ∧
    (∀ (l : Line) (ls rest : List Line), pipeLine l = true →
        (∀ x ∈ ls, pipeLine x = true) → headFails pipeLine rest = true →
        segmentLines ((l :: ls) ++ rest) =
          (if 2 ≤ (l :: ls).length then
            [Block.table (splitCells (trimL l))
              ((((l :: ls).map trimL).drop 2).map fun r => (splitCells r).map renderInlineL)]
           else []) ++ segmentLines rest) ∧
    segment "* a\n* b\nplain" =
      [Block.unorderedList [[InlineSpan.plain ['a']], [InlineSpan.plain ['b']]],
       Block.paragraph [InlineSpan.plain "plain".toList]] :=
  ⟨seg_ul_grouped, seg_ol_grouped, seg_pipe_grouped, by decide⟩

/-- C3 witness: a one-item bullet run followed by a plain line, evaluated
concretely. -/
theorem claim3_witness :
    segmentLines ["* a".toList, "plain".toList] =
      [Block.unorderedList [[InlineSpan.plain ['a']]],
       Block.paragraph [InlineSpan.plain "plain".toList]] := by
  have h := claim3_run_cursor_advance.1 "* a".toList [] ["plain".toList]
    (by decide) (by decide) (by decide)
  exact h.trans (by decide)

/-- C4 counterexample: the source renders a level-3 heading's text as the raw
`line.substring(4)` child, without calling the inline formatter, so for
`"### **x**"` the heading text is the literal five characters and differs
from the claimed `format("**x**")`. -/
theorem claim4_counterexample :
    segment "### **x**" = [Block.heading 3 [InlineSpan.plain "**x**".toList]] ∧
    segment "### **x**" ≠ [Block.heading 3 (renderInline "**x**")] := by decide

/-- C4 amended: every line whose trimmed form starts with `"### "` emits
exactly one level-3 heading whose text is the raw remainder after the
4-character prefix kept as a single plain literal span, not inline-formatted;
`segment "### Conditions Treated"` is still a single level-3 heading with
plain text `Conditions Treated`. -/
theorem claim4_heading_raw_text :
    (∀ (l : Line) (ls : List Line), h3Line l = true →
        segmentLines (l :: ls) =
          Block.heading 3 [InlineSpan.plain ((trimL l).drop 4)] :: segmentLines ls) ∧
    segment "### Conditions Treated" =
      [Block.heading 3 [InlineSpan.plain "Conditions Treated".toList]] := by
  constructor
  · intro l ls h
    show segLines (ls.length + 1) (l :: ls) = _
    simp [segLines, segmentLines, h]
  · decide

/-- C4 witness: the amended heading rule applied to a concrete line. -/
theorem claim4_witness :
    segmentLines ["### Benefits".toList] =
      [Block.heading 3 [InlineSpan.plain "Benefits".toList]] := by
  have h := claim4_heading_raw_text.1 "### Benefits".toList [] (by decide)
  exact h.trans (by decide)

/-- C5 counterexample: the inline formatter applied to
`"**Warning**: drowsiness"` does not return the claimed two-span sequence:
the capture-group split keeps the empty unmatched segment before the leading
delimiter. -/
theorem claim5_counterexample :
    renderInline "**Warning**: drowsiness" ≠
      [InlineSpan.emph "Warning".toList, InlineSpan.plain ": drowsiness".toList] := by
  decide

/-- C5 amended: the formatter splits its input into alternating segments,
plain outside matched `**` pairs and emphasized between them, but the split
keeps empty unmatched boundary segments, so
`format("**Warning**: drowsiness")` is the three-span sequence beginning
with an empty plain span. -/
theorem claim5_emphasis_split :
    renderInline "**Warning**: drowsiness" =
      [InlineSpan.plain [], InlineSpan.emph "Warning".toList,
       InlineSpan.plain ": drowsiness".toList] := by decide

/-- C6 counterexample: the bare delimiter `"**"` is an unbalanced occurrence
(a single `**` with no matching close), yet the formatter does not emit its
literal characters as plain text — the whole part starts and ends with `**`
and is classified emphasized with the delimiters stripped. -/
theorem claim6_counterexample :
    renderInline "**" = [InlineSpan.emph []] ∧
    renderInline "**" ≠ [InlineSpan.plain "**".toList] := by decide

/-- When the emphasis regex matches nowhere, the split worker returns the
whole remaining input as one unmatched segment. -/
lemma splitGo_no_match : ∀ (fuel : Nat) (pre cs : List Char), hasBold cs = false →
    splitGo fuel pre cs = [pre.reverse ++ cs] := by
  intro fuel
  induction fuel with
  | zero =>
    intro pre cs _
    cases cs with
    | nil => simp [splitGo]
    | cons c t => rfl
  | succ fuel ih =>
    intro pre cs h
    cases cs with
    | nil => simp [splitGo]
    | cons c t =>
      have h1 : matchAt (c :: t) = none := by
        have h' : ((matchAt (c :: t)).isSome || hasBold t) = false := by
          simpa [hasBold] using h
        rcases hm : matchAt (c :: t) with _ | len
        · rfl
        · rw [hm] at h'
          simp at h'
      have h2 : hasBold t = false := by
        have h' : ((matchAt (c :: t)).isSome || hasBold t) = false := by
          simpa [hasBold] using h
        rw [h1] at h'
        simpa using h'
      rw [splitGo, h1]
      rw [ih (c :: pre) t h2]
      simp

/-- C6 amended: an input with no balanced `**` pair is kept as the single
unmatched segment; it becomes a plain literal span unless the whole segment
itself starts and ends with the two-character delimiter, in which case it is
classified emphasized with two characters stripped from each end.
`format("a ** b")` is the single plain span `a ** b`. -/
theorem claim6_unbalanced_literal :
    (∀ cs : List Char, hasBold cs = false → renderInlineL cs = [mkSpan cs]) ∧
    renderInline "a ** b" = [InlineSpan.plain "a ** b".toList] := by
  constructor
  · intro cs h
    show (splitBold cs).map mkSpan = _
    rw [splitBold, splitGo_no_match _ _ _ h]
    rfl
  · decide

/-- C6 witness: the amended rule applied to a concrete unbalanced input. -/
theorem claim6_witness :
    renderInlineL "x**".toList = [mkSpan "x**".toList] :=
  claim6_unbalanced_literal.1 "x**".toList (by decide)

/-- C7 counterexample: the two-line run `"|\n|"` produces a table whose
headers sequence is empty, contradicting the claimed non-emptiness. -/
theorem claim7_counterexample : segment "|\n|" = [Block.table [] []] := by decide

/-- C7 amended: a table built from a pipe-prefixed run of exactly two lines
has an empty rows sequence; its headers are the pipe-split of the first run
line and may be empty as well (when that line has no cell with non-blank
content). -/
theorem claim7_two_line_table :
    ∀ (l sep : Line) (rest : List Line), pipeLine l = true → pipeLine sep = true →
      headFails pipeLine rest = true →
      segmentLines (l :: sep :: rest) =
        Block.table (splitCells (trimL l)) [] :: segmentLines rest := by
  intro l sep rest h1 h2 hrest
  have h := seg_table_rows l sep [] rest h1 h2 (by simp) hrest
  simpa using h

/-- C7 witness: a concrete two-line run yields a table with no rows. -/
theorem claim7_witness :
    segmentLines ["| a |".toList, "| b |".toList] = [Block.table [['a']] []] := by
  have h := claim7_two_line_table "| a |".toList "| b |".toList [] (by decide) (by decide)
    (by decide)
  exact h.trans (by decide)

/-- C8: the segmenter is total — any fuel at least the number of lines gives
the same fixed result, because every iteration of the outer scan and of the
inner grouping loops consumes at least one line; and the empty string yields
the empty document. -/
theorem claim8_totality :
    (∀ (n : Nat) (ls : List Line), ls.length ≤ n → segLines n ls = segmentLines ls) ∧
    segment "" = [] := by
  constructor
  · intro n ls h
    exact segLines_fuel n ls ls.length h (Nat.le_refl _)
  · decide

/-- C8 witness: surplus fuel applied to a concrete line list. -/
theorem claim8_witness : segLines 5 ["x".toList] = segmentLines ["x".toList] :=
  claim8_totality.1 5 ["x".toList] (by decide)

/-- C9: the one-line inputs `"**"` and `"***"` are each a single unmatched
segment that both starts and ends with the delimiter (the occurrences
overlap), so the formatter classifies them emphasized with two characters
stripped from each end, yielding `Emphasized("")` rather than literal plain
text. -/
theorem claim9_bare_delimiters :
    renderInline "**" = [InlineSpan.emph []] ∧
    renderInline "***" = [InlineSpan.emph []] := by decide

/-- C10: a data cell that is empty after trimming is deleted from its row, so
under a three-column header the row `| a |  | b |` keeps only two cells, the
later cell shifted left, with no padding or truncation to the header
width. -/
theorem claim10_ragged_row :
    segment "| h1 | h2 | h3 |\n| --- | --- | --- |\n| a |  | b |" =
      [Block.table ["h1".toList, "h2".toList, "h3".toList]
        [[[InlineSpan.plain ['a']], [InlineSpan.plain ['b']]]]] := by decide

end MedMd
